import Mathlib

/-!
Shallow embedding of the culture-coach voice-coaching client core: the PCM
sample codec (src/utils/audioUtils.ts), the playback scheduler with barge-in
and the session monitor, and the assessment-state merge applied on
updateAssessmentState tool calls (src/unnamed/part_002), over the data model
of src/types.ts.
-/

/-- State of one assessment dimension (src/types.ts, DimensionState).
Confidence and trend are kept as raw strings because at runtime the values
arrive as JSON text from the remote agent. -/
structure DimensionState where
  score : ℚ
  confidence : String
  evidenceCount : ℚ
  trend : String
deriving DecidableEq, Repr

/-- The five fixed dimension records of SessionState.dimensions (src/types.ts). -/
structure Dimensions where
  DT : DimensionState
  TR : DimensionState
  CO : DimensionState
  CA : DimensionState
  EP : DimensionState
deriving DecidableEq, Repr

/-- One evidence-log entry (src/types.ts, EvidenceItem). -/
structure EvidenceItem where
  timestamp : String
  dimension : String
  type : String
  summary : String
deriving DecidableEq, Repr

/-- One contradiction-log entry (src/types.ts, ContradictionAlert). -/
structure ContradictionAlert where
  dimension : String
  earlyStatement : String
  lateStatement : String
  resolution : String
deriving DecidableEq, Repr

/-- One score-trajectory snapshot (src/types.ts, ScorePoint); time is the
floored number of seconds since session start. -/
structure ScorePoint where
  time : ℕ
  DT : ℚ
  TR : ℚ
  CO : ℚ
  CA : ℚ
  EP : ℚ
deriving DecidableEq, Repr

/-- The aggregate session record (src/types.ts, SessionState). -/
structure SessionState where
  dimensions : Dimensions
  scoreHistory : List ScorePoint
  evidenceLog : List EvidenceItem
  contradictions : List ContradictionAlert
  conversationPhase : String
  strengths : List String
  developmentPriorities : List String
  summary : Option String
deriving DecidableEq, Repr

/-- INITIAL_SESSION_STATE of src/types.ts. -/
def INITIAL_SESSION_STATE : SessionState :=
  { dimensions :=
      { DT := { score := 3, confidence := "LOW", evidenceCount := 0, trend := "stable" },
        TR := { score := 3, confidence := "LOW", evidenceCount := 0, trend := "stable" },
        CO := { score := 3, confidence := "LOW", evidenceCount := 0, trend := "stable" },
        CA := { score := 3, confidence := "LOW", evidenceCount := 0, trend := "stable" },
        EP := { score := 3, confidence := "LOW", evidenceCount := 0, trend := "stable" } },
    scoreHistory := [{ time := 0, DT := 3, TR := 3, CO := 3, CA := 3, EP := 3 }],
    evidenceLog := [],
    contradictions := [],
    conversationPhase := "OPENING",
    strengths := [],
    developmentPriorities := [],
    summary := none }

/-- A per-dimension partial update as carried in the updateAssessmentState
tool arguments: every field is optional and only present fields are merged
(the object spread at src/unnamed/part_002, lines 634-637). -/
structure DimPatch where
  score : Option ℚ := none
  confidence : Option String := none
  evidenceCount : Option ℚ := none
  trend : Option String := none
deriving DecidableEq, Repr

/-- The optional per-dimension entries of a patch's dimensions object. -/
structure DimsPatch where
  DT : Option DimPatch := none
  TR : Option DimPatch := none
  CO : Option DimPatch := none
  CA : Option DimPatch := none
  EP : Option DimPatch := none
deriving DecidableEq, Repr

/-- A parsed updateAssessmentState tool-call argument object
(the schema at src/unnamed/part_002, lines 190-234). -/
structure Patch where
  dimensions : Option DimsPatch := none
  newEvidence : Option EvidenceItem := none
  contradiction : Option ContradictionAlert := none
  phase : Option String := none
  isComplete : Option Bool := none
  summary : Option String := none
  strengths : Option (List String) := none
  developmentPriorities : Option (List String) := none
deriving DecidableEq, Repr

/-- Field-level merge of one dimension: models the object spread that copies
the previous record and then overwrites exactly the fields present in the
patch (src/unnamed/part_002, lines 634-637). -/
def mergeDim (d : DimensionState) (p : DimPatch) : DimensionState :=
  { score := p.score.getD d.score,
    confidence := p.confidence.getD d.confidence,
    evidenceCount := p.evidenceCount.getD d.evidenceCount,
    trend := p.trend.getD d.trend }

/-- Merge of an optional per-dimension patch: the truthiness guard on
args.dimensions[key] keeps the old record when the key is absent. -/
def mergeDimOpt (d : DimensionState) (p : Option DimPatch) : DimensionState :=
  match p with
  | none => d
  | some q => mergeDim d q

/-- Merge of the whole dimensions map (src/unnamed/part_002, lines 630-640). -/
def mergeDims (d : Dimensions) (p : Option DimsPatch) : Dimensions :=
  match p with
  | none => d
  | some q =>
    { DT := mergeDimOpt d.DT q.DT,
      TR := mergeDimOpt d.TR q.TR,
      CO := mergeDimOpt d.CO q.CO,
      CA := mergeDimOpt d.CA q.CA,
      EP := mergeDimOpt d.EP q.EP }

/-- JavaScript logical-or on an optional string field, as used for the
scalar merges at src/unnamed/part_002, lines 660-663: an absent value and
the empty string are falsy, any other string overwrites. -/
def jsOrStr (p : Option String) (prev : String) : String :=
  match p with
  | none => prev
  | some v => if v = "" then prev else v

/-- JavaScript logical-or where the previous value is itself optional
(the summary field, src/unnamed/part_002, line 663). -/
def jsOrOptStr (p : Option String) (prev : Option String) : Option String :=
  match p with
  | none => prev
  | some v => if v = "" then prev else some v

/-- JavaScript logical-or on an optional array field: any present array is
truthy, including the empty array. -/
def jsOrList (p : Option (List String)) (prev : List String) : List String :=
  p.getD prev

/-- The updateAssessmentState merge applied through setSessionState
(src/unnamed/part_002, lines 617-665): append the optional evidence and
contradiction entries, merge the dimensions field by field, append one
ScorePoint carrying the floored elapsed seconds and the five post-merge
scores, and merge the scalar fields with JavaScript logical-or semantics.
`now` and `sessionStart` are wall-clock milliseconds. -/
def applyPatch (s : SessionState) (p : Patch) (now sessionStart : ℕ) : SessionState :=
  let newDimensions := mergeDims s.dimensions p.dimensions
  let elapsed := (now - sessionStart) / 1000
  let newPoint : ScorePoint :=
    { time := elapsed,
      DT := newDimensions.DT.score,
      TR := newDimensions.TR.score,
      CO := newDimensions.CO.score,
      CA := newDimensions.CA.score,
      EP := newDimensions.EP.score }
  { dimensions := newDimensions,
    scoreHistory := s.scoreHistory ++ [newPoint],
    evidenceLog := s.evidenceLog ++ p.newEvidence.toList,
    contradictions := s.contradictions ++ p.contradiction.toList,
    conversationPhase := jsOrStr p.phase s.conversationPhase,
    strengths := jsOrList p.strengths s.strengths,
    developmentPriorities := jsOrList p.developmentPriorities s.developmentPriorities,
    summary := jsOrOptStr p.summary s.summary }

/-- Sequential application of a list of patches in arrival order; each entry
carries the wall-clock time at which it was applied. -/
def applyPatches (s : SessionState) (ps : List (Patch × ℕ)) (sessionStart : ℕ) : SessionState :=
  ps.foldl (fun st pr => applyPatch st pr.1 pr.2 sessionStart) s

/-- State owned by the session-timing monitor: the early-exit button flag and
whether the hard-timeout disconnect fired. -/
structure MonitorState where
  showEarlyExitButton : Bool
  disconnected : Bool
deriving DecidableEq, Repr

/-- The all-dimensions-high test of the monitor: the source compares every
confidence to the lowercase literal (src/unnamed/part_002, line 317); the
key-count guard is always satisfied for the record-typed dimensions map. -/
def allHigh (d : Dimensions) : Bool :=
  (d.DT.confidence == "high") && (d.TR.confidence == "high") &&
  (d.CO.confidence == "high") && (d.CA.confidence == "high") &&
  (d.EP.confidence == "high")

/-- One 1 Hz tick of the session-timing monitor (src/unnamed/part_002, lines
299-323): at twenty elapsed minutes force the disconnect and stop; at five
or more, raise the early-exit button when every confidence passes the
lowercase comparison. Times are wall-clock milliseconds. -/
def monitorTick (m : MonitorState) (now sessionStart : ℕ) (st : SessionState) : MonitorState :=
  let elapsedMinutes : ℚ := ((now : ℚ) - (sessionStart : ℚ)) / 60000
  if 20 ≤ elapsedMinutes then { m with disconnected := true }
  else if 5 ≤ elapsedMinutes then
    if allHigh st.dimensions then { m with showEarlyExitButton := true } else m
  else m

/-- Mutable playback state of the client: the nextStartTime cursor, the set
of in-flight buffer sources, the agent-speaking flag, the capture-cooldown
timestamp and the number of scheduled 200 ms delayed-clear callbacks
(src/unnamed/part_002, lines 261-288 and 576-597). -/
structure SchedState where
  nextStartTime : ℚ
  sources : Finset ℕ
  speaking : Bool
  lastEndTime : ℚ
  pendingClear : ℕ
deriving DecidableEq

/-- Initial playback state at connection start. -/
def schedInit : SchedState :=
  { nextStartTime := 0, sources := ∅, speaking := false, lastEndTime := 0, pendingClear := 0 }

/-- Enqueue of one decoded audio buffer (the response.audio.delta handler,
src/unnamed/part_002, lines 576-588): the cursor is bumped up to the output
clock when it has fallen behind, the buffer starts at the resulting time,
the cursor advances by the buffer duration, the source joins the set and the
speaking flag is set. Returns the new state and the scheduled start time. -/
def enqueue (s : SchedState) (id : ℕ) (dur clock : ℚ) : SchedState × ℚ :=
  let t := max s.nextStartTime clock
  ({ s with nextStartTime := t + dur, sources := insert id s.sources, speaking := true }, t)

/-- One inbound audio frame: a source id, the decoded buffer duration in
seconds, and the output-clock reading at the moment it is enqueued. -/
structure Frame where
  id : ℕ
  dur : ℚ
  clock : ℚ
deriving DecidableEq, Repr

/-- Scheduled start times of a sequence of enqueued frames. -/
def runStarts : SchedState → List Frame → List ℚ
  | _, [] => []
  | s, f :: fs =>
    let p := enqueue s f.id f.dur f.clock
    p.2 :: runStarts p.1 fs

/-- Start times of back-to-back buffers: the first at `t`, each following one
after the previous buffer's duration. -/
def contiguousFrom : ℚ → List ℚ → List ℚ
  | _, [] => []
  | t, d :: ds => t :: contiguousFrom (t + d) ds

/-- Prompt arrival: every listed frame's clock reading is at or before the
cursor value the scheduler holds when that frame is enqueued (`nst` is the
cursor before the first listed frame). -/
def promptAfterB : ℚ → List Frame → Bool
  | _, [] => true
  | nst, f :: fs => decide (f.clock ≤ nst) && promptAfterB (nst + f.dur) fs

/-- The input_audio_buffer.speech_started barge-in handler
(src/unnamed/part_002, lines 694-707): stops and clears every active source,
clears the speaking flag, resets the cursor and clears the cooldown
timestamp. Pending delayed-clear callbacks are not cancelled by the code. -/
def bargeIn (s : SchedState) : SchedState :=
  { s with sources := ∅, speaking := false, nextStartTime := 0, lastEndTime := 0 }

/-- The source.onended handler (src/unnamed/part_002, lines 589-597): the
finished source leaves the set; when the set is then empty a 200 ms delayed
clear is scheduled — the speaking flag itself is not touched yet. -/
def sourceEnded (s : SchedState) (id : ℕ) : SchedState :=
  let s' := { s with sources := s.sources.erase id }
  if s'.sources = ∅ then { s' with pendingClear := s'.pendingClear + 1 } else s'

/-- Firing of one scheduled 200 ms delayed clear (src/unnamed/part_002,
lines 592-595): unconditionally clears the speaking flag and records the
completion timestamp used by the capture cooldown. -/
def clearFires (s : SchedState) (now : ℚ) : SchedState :=
  { s with pendingClear := s.pendingClear - 1, speaking := false, lastEndTime := now }

/-- Two's-complement reinterpretation of an unsigned 16-bit value, as done by
DataView.getInt16. -/
def toSigned16 (n : ℕ) : ℤ := if n < 32768 then (n : ℤ) else (n : ℤ) - 65536

/-- The sample-extraction loop of decodeAudioData for one channel
(src/utils/audioUtils.ts, lines 36-49): byte pairs are read little-endian as
signed 16-bit values; frameCount is the floor of half the byte length, so a
trailing odd byte is silently ignored. -/
def decodeAudioData : List (Fin 256) → List ℤ
  | [] => []
  | [_] => []
  | b0 :: b1 :: rest => toSigned16 (b0.val + 256 * b1.val) :: decodeAudioData rest

/-- The int16-to-float conversion inside decodeAudioData
(src/utils/audioUtils.ts, line 48): sample / 32768. -/
def int16ToFloat (v : ℤ) : ℚ := (v : ℚ) / 32768

/-- Truncation toward zero, as applied by a JavaScript Int16Array store to a
fractional number. -/
def truncQ (q : ℚ) : ℤ := if q < 0 then -⌊-q⌋ else ⌊q⌋

/-- Wrap of a truncated integer into an Int16Array slot (mod 2^16, then
reinterpreted as signed). -/
def toInt16Wrap (n : ℤ) : ℤ := (n + 32768) % 65536 - 32768

/-- One sample of float32ToInt16 (src/utils/audioUtils.ts, lines 57-65):
clamp to [-1, 1], scale negatives by 32768 and non-negatives by 32767, then
store into an Int16Array slot. -/
def float32ToInt16 (x : ℚ) : ℤ :=
  let s := max (-1) (min 1 x)
  toInt16Wrap (truncQ (if s < 0 then s * 32768 else s * 32767))

/-- Little-endian byte encoding of one 16-bit sample, as produced by viewing
an Int16Array's buffer through a Uint8Array (src/unnamed/part_002, line 549). -/
def int16ToBytes (v : ℤ) : List (Fin 256) :=
  let u := (v % 65536).toNat
  [⟨u % 256, Nat.mod_lt _ (by norm_num)⟩, ⟨u / 256 % 256, Nat.mod_lt _ (by norm_num)⟩]

/-- Byte encoding of a whole sample list. -/
def encodeInt16s : List ℤ → List (Fin 256)
  | [] => []
  | v :: rest => int16ToBytes v ++ encodeInt16s rest

/-- Per-sample round trip: int16 to float, then float32ToInt16 back. -/
def roundSample (v : ℤ) : ℤ := float32ToInt16 (int16ToFloat v)

/-- C1: a patch carrying only a DT score and a phase merges field-locally:
applied to any state (in particular the initial state), the DT score and the
conversation phase are overwritten, every other field of DT, every other
dimension, the logs and the remaining scalar fields are untouched, and the
appended ScorePoint carries the new DT score with the other four dimensions
at their prior scores. -/
theorem c1_field_level_merge (s : SessionState) (v : ℚ) (now sessionStart : ℕ) :
    let p : Patch :=
      { dimensions := some { DT := some { score := some v } }, phase := some "CORE" }
    let r := applyPatch s p now sessionStart
    r.dimensions.DT.score = v ∧
    r.dimensions.DT.confidence = s.dimensions.DT.confidence ∧
    r.dimensions.DT.evidenceCount = s.dimensions.DT.evidenceCount ∧
    r.dimensions.DT.trend = s.dimensions.DT.trend ∧
    r.dimensions.TR = s.dimensions.TR ∧
    r.dimensions.CO = s.dimensions.CO ∧
    r.dimensions.CA = s.dimensions.CA ∧
    r.dimensions.EP = s.dimensions.EP ∧
    r.conversationPhase = "CORE" ∧
    r.strengths = s.strengths ∧
    r.developmentPriorities = s.developmentPriorities ∧
    r.summary = s.summary ∧
    r.evidenceLog = s.evidenceLog ∧
    r.contradictions = s.contradictions ∧
    r.scoreHistory = s.scoreHistory ++
      [{ time := (now - sessionStart) / 1000, DT := v, TR := s.dimensions.TR.score,
         CO := s.dimensions.CO.score, CA := s.dimensions.CA.score,
         EP := s.dimensions.EP.score }] := by
  simp [applyPatch, mergeDims, mergeDimOpt, mergeDim, jsOrStr, jsOrOptStr, jsOrList]

/-- C3: after the barge-in handler the active-source set is empty, the
speaking flag is false, the cursor and the capture-cooldown timestamp are
zero, whatever the prior state, and running the handler twice yields the
same state as running it once. -/
theorem c3_barge_in_clears (s : SchedState) :
    (bargeIn s).sources = ∅ ∧ (bargeIn s).speaking = false ∧
    (bargeIn s).nextStartTime = 0 ∧ (bargeIn s).lastEndTime = 0 ∧
    bargeIn (bargeIn s) = bargeIn s := by
  exact ⟨rfl, rfl, rfl, rfl, rfl⟩

/-- C4: every patch application appends exactly one ScorePoint, carrying the
floored elapsed seconds since session start and the five post-merge
dimension scores, so the score history grows by exactly one entry per
patch. -/
theorem c4_one_scorepoint_per_patch (s : SessionState) (p : Patch) (now sessionStart : ℕ) :
    let r := applyPatch s p now sessionStart
    r.scoreHistory =
      s.scoreHistory ++
        [{ time := (now - sessionStart) / 1000, DT := r.dimensions.DT.score,
           TR := r.dimensions.TR.score, CO := r.dimensions.CO.score,
           CA := r.dimensions.CA.score, EP := r.dimensions.EP.score }] ∧
    r.scoreHistory.length = s.scoreHistory.length + 1 := by
  simp [applyPatch]

/-- C5: the evidence and contradiction logs are append-only: one application
appends exactly the optional evidence entry and exactly the optional
contradiction entry (one each when present, nothing when absent), and across
any sequence of applications the prior log contents remain an unchanged
initial segment. -/
theorem c5_append_only_logs :
    (∀ (s : SessionState) (p : Patch) (now sessionStart : ℕ),
       (applyPatch s p now sessionStart).evidenceLog =
         s.evidenceLog ++ p.newEvidence.toList ∧
       (applyPatch s p now sessionStart).contradictions =
         s.contradictions ++ p.contradiction.toList) ∧
    (∀ (s : SessionState) (ps : List (Patch × ℕ)) (sessionStart : ℕ),
       ∃ t1 t2,
         (applyPatches s ps sessionStart).evidenceLog = s.evidenceLog ++ t1 ∧
         (applyPatches s ps sessionStart).contradictions = s.contradictions ++ t2) := by
  constructor
  · intro s p now sessionStart
    exact ⟨rfl, rfl⟩
  · intro s ps sessionStart
    induction ps generalizing s with
    | nil => exact ⟨[], [], by simp [applyPatches], by simp [applyPatches]⟩
    | cons hd tl ih =>
      obtain ⟨t1, t2, h1, h2⟩ := ih (applyPatch s hd.1 hd.2 sessionStart)
      refine ⟨hd.1.newEvidence.toList ++ t1, hd.1.contradiction.toList ++ t2, ?_, ?_⟩
      · show (applyPatches (applyPatch s hd.1 hd.2 sessionStart) tl sessionStart).evidenceLog = _
        rw [h1]
        show (s.evidenceLog ++ hd.1.newEvidence.toList) ++ t1 = _
        rw [List.append_assoc]
      · show (applyPatches (applyPatch s hd.1 hd.2 sessionStart) tl sessionStart).contradictions = _
        rw [h2]
        show (s.contradictions ++ hd.1.contradiction.toList) ++ t2 = _
        rw [List.append_assoc]

/-- C8 evaluation at the failing input: with every dimension's confidence at
the declared enum value and six minutes elapsed, the monitor does not raise
the early-exit flag, because the source compares each confidence against the
lowercase literal while the state holds the declared uppercase values. -/
theorem c8_early_exit_not_raised :
    let stHigh : SessionState :=
      { INITIAL_SESSION_STATE with
          dimensions :=
            { DT := { score := 3, confidence := "HIGH", evidenceCount := 0, trend := "stable" },
              TR := { score := 3, confidence := "HIGH", evidenceCount := 0, trend := "stable" },
              CO := { score := 3, confidence := "HIGH", evidenceCount := 0, trend := "stable" },
              CA := { score := 3, confidence := "HIGH", evidenceCount := 0, trend := "stable" },
              EP := { score := 3, confidence := "HIGH", evidenceCount := 0, trend := "stable" } } }
    (monitorTick { showEarlyExitButton := false, disconnected := false }
        360000 0 stHigh).showEarlyExitButton = false ∧
    allHigh stHigh.dimensions = false ∧
    stHigh.dimensions.DT.confidence = "HIGH" ∧
    stHigh.dimensions.TR.confidence = "HIGH" ∧
    stHigh.dimensions.CO.confidence = "HIGH" ∧
    stHigh.dimensions.CA.confidence = "HIGH" ∧
    stHigh.dimensions.EP.confidence = "HIGH" := by
  refine ⟨?_, by decide, rfl, rfl, rfl, rfl, rfl⟩
  norm_num [monitorTick, allHigh]
  decide

/-- C9 counterexample: enqueue one buffer and let it end — the source set is
already empty while the speaking flag is still true, because the clear is
deferred by 200 ms, so at this reachable state the flag is not equivalent to
non-emptiness of the set. -/
theorem c9_counterexample :
    (sourceEnded (enqueue schedInit 0 1 0).1 0).sources = ∅ ∧
    (sourceEnded (enqueue schedInit 0 1 0).1 0).speaking = true ∧
    ¬ ((sourceEnded (enqueue schedInit 0 1 0).1 0).speaking = true ↔
       (sourceEnded (enqueue schedInit 0 1 0).1 0).sources ≠ ∅) := by
  decide

/-- C9 amended: enqueue adds the source and sets the speaking flag; a
finished or stopped source is removed from the set exactly once and never
survives its own removal, but the removal does not itself clear the flag —
only the 200 ms delayed clear (or barge-in) does, and that clear is
unconditional — so the flag can remain true while the set is already empty,
and the claimed equivalence holds only outside the delayed-clear window. -/
theorem c9_speaking_flag_behavior :
    (∀ (s : SchedState) (id : ℕ) (dur clock : ℚ),
       (enqueue s id dur clock).1.speaking = true ∧
       id ∈ (enqueue s id dur clock).1.sources) ∧
    (∀ (s : SchedState) (id : ℕ),
       (sourceEnded s id).sources = s.sources.erase id ∧
       id ∉ (sourceEnded s id).sources ∧
       (sourceEnded s id).speaking = s.speaking) ∧
    (∀ (s : SchedState) (now : ℚ), (clearFires s now).speaking = false) := by
  refine ⟨fun s id dur clock => ⟨rfl, Finset.mem_insert_self id s.sources⟩,
          fun s id => ?_, fun s now => rfl⟩
  have hsrc : (sourceEnded s id).sources = s.sources.erase id := by
    simp only [sourceEnded]
    split <;> rfl
  have hspeak : (sourceEnded s id).speaking = s.speaking := by
    simp only [sourceEnded]
    split <;> rfl
  exact ⟨hsrc, by rw [hsrc]; exact Finset.not_mem_erase id s.sources, hspeak⟩

/-- C10 counterexample: a present empty-string summary does not overwrite —
applied to a state holding a prior summary, a patch whose summary field is
present but empty leaves the prior summary in place, so presence alone does
not decide overwriting. -/
theorem c10_counterexample :
    (applyPatch { INITIAL_SESSION_STATE with summary := some "prior" }
        { summary := some "" } 0 0).summary = some "prior" ∧
    (some "prior" : Option String) ≠ some "" := by
  exact ⟨rfl, by decide⟩

/-- C10 amended: phase, strengths, developmentPriorities and summary merge
with JavaScript logical-or truthiness rather than bare presence: an absent
field retains the prior value; a present strengths or developmentPriorities
array always overwrites, including the empty array; a present phase or
summary string overwrites exactly when it is non-empty, and a present
empty-string value is treated as absent, retaining the prior value. -/
theorem c10_truthy_scalar_merge (s : SessionState) (p : Patch) (now sessionStart : ℕ) :
    (p.phase = none → (applyPatch s p now sessionStart).conversationPhase = s.conversationPhase) ∧
    (∀ v, p.phase = some v → v ≠ "" → (applyPatch s p now sessionStart).conversationPhase = v) ∧
    (p.phase = some "" → (applyPatch s p now sessionStart).conversationPhase = s.conversationPhase) ∧
    (p.strengths = none → (applyPatch s p now sessionStart).strengths = s.strengths) ∧
    (∀ l, p.strengths = some l → (applyPatch s p now sessionStart).strengths = l) ∧
    (p.developmentPriorities = none →
       (applyPatch s p now sessionStart).developmentPriorities = s.developmentPriorities) ∧
    (∀ l, p.developmentPriorities = some l →
       (applyPatch s p now sessionStart).developmentPriorities = l) ∧
    (p.summary = none → (applyPatch s p now sessionStart).summary = s.summary) ∧
    (∀ v, p.summary = some v → v ≠ "" → (applyPatch s p now sessionStart).summary = some v) ∧
    (p.summary = some "" → (applyPatch s p now sessionStart).summary = s.summary) := by
  refine ⟨?_, ?_, ?_, ?_, ?_, ?_, ?_, ?_, ?_, ?_⟩
  · intro h; simp [applyPatch, jsOrStr, h]
  · intro v h hne; simp [applyPatch, jsOrStr, h, hne]
  · intro h; simp [applyPatch, jsOrStr, h]
  · intro h; simp [applyPatch, jsOrList, h]
  · intro l h; simp [applyPatch, jsOrList, h]
  · intro h; simp [applyPatch, jsOrList, h]
  · intro l h; simp [applyPatch, jsOrList, h]
  · intro h; simp [applyPatch, jsOrOptStr, h]
  · intro v h hne; simp [applyPatch, jsOrOptStr, h, hne]
  · intro h; simp [applyPatch, jsOrOptStr, h]

/-- Witness for c10_truthy_scalar_merge at a concrete state and patch: a
present non-empty phase overwrites, a present empty strengths array
overwrites, a present non-empty summary overwrites, and the absent
developmentPriorities field retains the prior value. -/
theorem c10_truthy_scalar_merge_witness :
    (applyPatch INITIAL_SESSION_STATE
        { phase := some "CORE", strengths := some [], summary := some "done" }
        0 0).conversationPhase = "CORE" ∧
    (applyPatch INITIAL_SESSION_STATE
        { phase := some "CORE", strengths := some [], summary := some "done" }
        0 0).strengths = [] ∧
    (applyPatch INITIAL_SESSION_STATE
        { phase := some "CORE", strengths := some [], summary := some "done" }
        0 0).summary = some "done" ∧
    (applyPatch INITIAL_SESSION_STATE
        { phase := some "CORE", strengths := some [], summary := some "done" }
        0 0).developmentPriorities = [] := by
  have h := c10_truthy_scalar_merge INITIAL_SESSION_STATE
    { phase := some "CORE", strengths := some [], summary := some "done" } 0 0
  exact ⟨h.2.1 "CORE" rfl (by decide), h.2.2.2.2.1 [] rfl,
         h.2.2.2.2.2.2.2.2.1 "done" rfl (by decide), h.2.2.2.2.2.1 rfl⟩

/-- C2 counterexample: two one-second frames where the output clock has
advanced to five seconds by the time the second frame is enqueued — the
second buffer starts at five, not at the first start plus the first
duration, so the claimed unconditional gapless property fails. -/
theorem c2_counterexample :
    runStarts schedInit [⟨0, 1, 0⟩, ⟨1, 1, 5⟩] = [0, 5] ∧ (5 : ℚ) ≠ 0 + 1 := by
  constructor
  · norm_num [runStarts, enqueue, schedInit, max_def]
  · norm_num

/-- The back-to-back start list has one start per duration. -/
theorem contiguousFrom_length (ds : List ℚ) : ∀ t, (contiguousFrom t ds).length = ds.length := by
  induction ds with
  | nil => intro t; rfl
  | cons d ds ih => intro t; simp [contiguousFrom, ih]

/-- Indexing into the back-to-back start list: the i-th start is the base
time plus the sum of the earlier durations. -/
theorem contiguousFrom_getD (ds : List ℚ) :
    ∀ (t : ℚ) (i : ℕ), i < ds.length →
      (contiguousFrom t ds).getD i 0 = t + (ds.take i).sum := by
  induction ds with
  | nil => intro t i h; simp at h
  | cons d ds ih =>
    intro t i h
    cases i with
    | zero => simp [contiguousFrom]
    | succ n =>
      have hn : n < ds.length := by simpa using h
      have hrec := ih (t + d) n hn
      simp only [contiguousFrom, List.getD_cons_succ]
      rw [hrec]
      simp [add_assoc]

/-- Under prompt arrival, the scheduled start times are exactly the
back-to-back sequence beginning at the first buffer's start. -/
theorem runStarts_contiguous :
    ∀ (fs : List Frame) (s : SchedState) (f : Frame),
      promptAfterB (max s.nextStartTime f.clock + f.dur) fs = true →
      runStarts s (f :: fs) =
        contiguousFrom (max s.nextStartTime f.clock) (f.dur :: fs.map Frame.dur) := by
  intro fs
  induction fs with
  | nil => intro s f _; rfl
  | cons g gs ih =>
    intro s f h
    rw [promptAfterB, Bool.and_eq_true, decide_eq_true_eq] at h
    obtain ⟨hg, hrest⟩ := h
    have hnext : (enqueue s f.id f.dur f.clock).1.nextStartTime =
        max s.nextStartTime f.clock + f.dur := rfl
    have hmax : max ((enqueue s f.id f.dur f.clock).1.nextStartTime) g.clock =
        max s.nextStartTime f.clock + f.dur := by
      rw [hnext, max_eq_left hg]
    have ih' := ih (enqueue s f.id f.dur f.clock).1 g (by rw [hmax]; exact hrest)
    show (max s.nextStartTime f.clock) ::
        runStarts (enqueue s f.id f.dur f.clock).1 (g :: gs) = _
    rw [ih', hmax]
    rfl

/-- C2 amended: each enqueue schedules at the max of the cursor and the
output clock and then advances the cursor by the buffer duration; provided
every later frame arrives while the cursor is still at or ahead of the
output clock (no underrun between frames), the i-th scheduled start equals
the first buffer's start plus the sum of the durations of buffers before it
— no gaps, no overlaps. -/
theorem c2_gapless_scheduling :
    (∀ (s : SchedState) (id : ℕ) (dur clock : ℚ),
       (enqueue s id dur clock).2 = max s.nextStartTime clock ∧
       (enqueue s id dur clock).1.nextStartTime = (enqueue s id dur clock).2 + dur) ∧
    (∀ (s : SchedState) (f : Frame) (fs : List Frame),
       promptAfterB (max s.nextStartTime f.clock + f.dur) fs = true →
       ∀ i, i < (f :: fs).length →
         (runStarts s (f :: fs)).getD i 0 =
           max s.nextStartTime f.clock + (((f :: fs).map Frame.dur).take i).sum) := by
  constructor
  · intro s id dur clock
    exact ⟨rfl, rfl⟩
  · intro s f fs h i hi
    rw [runStarts_contiguous fs s f h]
    have hlist : ((f :: fs).map Frame.dur) = f.dur :: fs.map Frame.dur := rfl
    rw [hlist]
    exact contiguousFrom_getD _ _ _ (by simpa using hi)

/-- Witness for c2_gapless_scheduling: the spec scenario of three
4096-sample frames at 24 kHz, all enqueued while the output clock reads
zero, gives the third buffer the start time 8192 / 24000 seconds. -/
theorem c2_gapless_scheduling_witness :
    promptAfterB (max schedInit.nextStartTime (0 : ℚ) + 4096 / 24000)
      [⟨1, 4096 / 24000, 0⟩, ⟨2, 4096 / 24000, 0⟩] = true ∧
    (runStarts schedInit
        [⟨0, 4096 / 24000, 0⟩, ⟨1, 4096 / 24000, 0⟩, ⟨2, 4096 / 24000, 0⟩]).getD 2 0 =
      8192 / 24000 := by
  have hp : promptAfterB (max schedInit.nextStartTime (0 : ℚ) + 4096 / 24000)
      [⟨1, 4096 / 24000, 0⟩, ⟨2, 4096 / 24000, 0⟩] = true := by
    norm_num [promptAfterB, schedInit]
  refine ⟨hp, ?_⟩
  have h := c2_gapless_scheduling.2 schedInit ⟨0, 4096 / 24000, 0⟩
    [⟨1, 4096 / 24000, 0⟩, ⟨2, 4096 / 24000, 0⟩] hp 2 (by norm_num)
  rw [h]
  norm_num [schedInit]

/-- The decoder produces the floor of half the byte count, as frameCount is
computed with Math.floor. -/
theorem decodeAudioData_length (b : List (Fin 256)) :
    (decodeAudioData b).length = b.length / 2 := by
  induction b using decodeAudioData.induct with
  | case1 => rfl
  | case2 x => simp [decodeAudioData]
  | case3 b0 b1 rest ih =>
    simp only [decodeAudioData, List.length_cons, ih]
    omega

/-- Every decoded sample is a signed 16-bit value. -/
theorem decodeAudioData_mem_range (b : List (Fin 256)) :
    ∀ v ∈ decodeAudioData b, -32768 ≤ v ∧ v ≤ 32767 := by
  induction b using decodeAudioData.induct with
  | case1 => intro v hv; simp [decodeAudioData] at hv
  | case2 x => intro v hv; simp [decodeAudioData] at hv
  | case3 b0 b1 rest ih =>
    intro v hv
    rw [decodeAudioData, List.mem_cons] at hv
    rcases hv with h | h
    · subst h
      have h0 := b0.isLt
      have h1 := b1.isLt
      unfold toSigned16
      split <;> omega
    · exact ih v h

/-- The byte encoding of a sample list is twice as long. -/
theorem encodeInt16s_length (l : List ℤ) : (encodeInt16s l).length = 2 * l.length := by
  induction l with
  | nil => rfl
  | cons v rest ih => simp [encodeInt16s, int16ToBytes, ih]; omega

/-- Reading back the two little-endian bytes of an in-range sample restores
the sample. -/
theorem toSigned16_bytes (v : ℤ) (h1 : -32768 ≤ v) (h2 : v ≤ 32767) :
    toSigned16 ((v % 65536).toNat % 256 +
      256 * ((v % 65536).toNat / 256 % 256)) = v := by
  have h3 : (((v % 65536).toNat : ℤ)) = v % 65536 :=
    Int.toNat_of_nonneg (Int.emod_nonneg v (by norm_num))
  have h5 : (v % 65536).toNat % 256 + 256 * ((v % 65536).toNat / 256 % 256) =
      (v % 65536).toNat := by omega
  rw [h5]
  unfold toSigned16
  split <;> omega

/-- Decoding the byte encoding of in-range samples gives the samples back. -/
theorem decode_encode_of_range (l : List ℤ) (h : ∀ v ∈ l, -32768 ≤ v ∧ v ≤ 32767) :
    decodeAudioData (encodeInt16s l) = l := by
  induction l with
  | nil => rfl
  | cons v rest ih =>
    have hv := h v (List.mem_cons_self v rest)
    have hrest := ih fun w hw => h w (List.mem_cons_of_mem v hw)
    simp only [encodeInt16s, int16ToBytes, List.cons_append, List.nil_append,
      decodeAudioData, List.cons.injEq]
    exact ⟨toSigned16_bytes v hv.1 hv.2, by simpa using hrest⟩

/-- A non-positive in-range sample survives the float round trip exactly:
the negative branch of float32ToInt16 scales by the same constant the
decoder divided by. -/
theorem roundSample_nonpos (v : ℤ) (h1 : -32768 ≤ v) (h2 : v ≤ 0) : roundSample v = v := by
  simp only [roundSample, float32ToInt16, int16ToFloat]
  have hq1 : (-32768 : ℚ) ≤ (v : ℚ) := by exact_mod_cast h1
  have hq2 : (v : ℚ) ≤ 0 := by exact_mod_cast h2
  have hpos : (0 : ℚ) < 32768 := by norm_num
  have hhigh : (v : ℚ) / 32768 ≤ 1 := by rw [div_le_one hpos]; linarith
  have hlow : (-1 : ℚ) ≤ (v : ℚ) / 32768 := by rw [le_div_iff₀ hpos]; linarith
  rw [min_eq_right hhigh, max_eq_right hlow]
  rcases h2.lt_or_eq with hvneg | hv0
  · have hq3 : (v : ℚ) < 0 := by exact_mod_cast hvneg
    have hcond : (v : ℚ) / 32768 < 0 := div_neg_of_neg_of_pos hq3 hpos
    rw [if_pos hcond]
    have hmul : (v : ℚ) / 32768 * 32768 = (v : ℚ) := div_mul_cancel₀ _ (by norm_num)
    rw [hmul]
    have htr : truncQ (v : ℚ) = v := by
      simp only [truncQ]
      rw [if_pos hq3, ← Int.cast_neg, Int.floor_intCast]
      omega
    rw [htr]
    simp only [toInt16Wrap]
    omega
  · subst hv0
    norm_num [truncQ, toInt16Wrap]

/-- A positive in-range sample comes back exactly one unit low: the
non-negative branch of float32ToInt16 scales by 32767 while the decoder
divided by 32768, and the Int16Array store truncates. -/
theorem roundSample_pos (v : ℤ) (h1 : 1 ≤ v) (h2 : v ≤ 32767) : roundSample v = v - 1 := by
  simp only [roundSample, float32ToInt16, int16ToFloat]
  have hq1 : (1 : ℚ) ≤ (v : ℚ) := by exact_mod_cast h1
  have hq2 : (v : ℚ) ≤ 32767 := by exact_mod_cast h2
  have hpos : (0 : ℚ) < 32768 := by norm_num
  have hhigh : (v : ℚ) / 32768 ≤ 1 := by rw [div_le_one hpos]; linarith
  have hlow : (-1 : ℚ) ≤ (v : ℚ) / 32768 := by rw [le_div_iff₀ hpos]; linarith
  rw [min_eq_right hhigh, max_eq_right hlow]
  have hnn : ¬ ((v : ℚ) / 32768 < 0) := by
    push_neg
    exact div_nonneg (by linarith) (le_of_lt hpos)
  rw [if_neg hnn]
  have hfl : truncQ ((v : ℚ) / 32768 * 32767) = v - 1 := by
    have hy : ¬ ((v : ℚ) / 32768 * 32767 < 0) := by
      push_neg
      exact mul_nonneg (div_nonneg (by linarith) (le_of_lt hpos)) (by norm_num)
    simp only [truncQ]
    rw [if_neg hy, Int.floor_eq_iff]
    constructor
    · push_cast
      rw [div_mul_eq_mul_div, le_div_iff₀ hpos]
      nlinarith
    · push_cast
      rw [div_mul_eq_mul_div, div_lt_iff₀ hpos]
      nlinarith
  rw [hfl]
  simp only [toInt16Wrap]
  omega

/-- Every in-range sample round-trips to an in-range sample at most one unit
away. -/
theorem roundSample_close (v : ℤ) (h1 : -32768 ≤ v) (h2 : v ≤ 32767) :
    (v - roundSample v).natAbs ≤ 1 ∧ -32768 ≤ roundSample v ∧ roundSample v ≤ 32767 := by
  rcases le_or_lt v 0 with h | h
  · rw [roundSample_nonpos v h1 h]
    omega
  · rw [roundSample_pos v h h2]
    omega

/-- C6: for an even-length byte sequence, decoding to int16 samples,
converting to floats, converting back with float32ToInt16 and re-encoding
yields a byte sequence of the original length whose samples decode back
exactly, with every round-tripped sample within one least significant bit
of the original (non-positive samples are exact, positive samples lose
exactly one unit). -/
theorem c6_roundtrip_within_1lsb (b : List (Fin 256)) (heven : b.length % 2 = 0) :
    List.Forall₂ (fun v w => (v - w).natAbs ≤ 1) (decodeAudioData b)
      ((decodeAudioData b).map roundSample) ∧
    decodeAudioData (encodeInt16s ((decodeAudioData b).map roundSample)) =
      (decodeAudioData b).map roundSample ∧
    (encodeInt16s ((decodeAudioData b).map roundSample)).length = b.length := by
  have hrange := decodeAudioData_mem_range b
  refine ⟨?_, ?_, ?_⟩
  · rw [List.forall₂_map_right_iff, List.forall₂_same]
    intro v hv
    obtain ⟨ha, hb⟩ := hrange v hv
    exact (roundSample_close v ha hb).1
  · apply decode_encode_of_range
    intro w hw
    rw [List.mem_map] at hw
    obtain ⟨v, hv, rfl⟩ := hw
    obtain ⟨ha, hb⟩ := hrange v hv
    exact (roundSample_close v ha hb).2
  · rw [encodeInt16s_length, List.length_map, decodeAudioData_length]
    omega

/-- Witness for c6_roundtrip_within_1lsb at the concrete four-byte input
52 18 255 255 (samples 4660 and -1): the positive sample comes back as 4659
and the negative one exactly. -/
theorem c6_roundtrip_within_1lsb_witness :
    (([(52 : Fin 256), 18, 255, 255] : List (Fin 256)).length % 2 = 0) ∧
    List.Forall₂ (fun v w => (v - w).natAbs ≤ 1)
      (decodeAudioData [(52 : Fin 256), 18, 255, 255])
      ((decodeAudioData [(52 : Fin 256), 18, 255, 255]).map roundSample) := by
  exact ⟨rfl, (c6_roundtrip_within_1lsb [(52 : Fin 256), 18, 255, 255] rfl).1⟩

/-- C7 counterexample: a three-byte (odd-length) input does not fail — the
decoder returns one sample, the floor of half the length, exactly as if the
trailing byte had been removed, so an odd length does not produce a
FormatError. -/
theorem c7_counterexample :
    decodeAudioData [(1 : Fin 256), 2, 3] = [513] ∧
    (decodeAudioData [(1 : Fin 256), 2, 3]).length = 1 ∧
    decodeAudioData [(1 : Fin 256), 2, 3] = decodeAudioData [(1 : Fin 256), 2] := by
  refine ⟨?_, rfl, rfl⟩
  decide

/-- C7 amended: the byte-buffer-to-samples conversion never fails on an odd
byte length — it decodes the floor of half the byte count and silently
ignores a trailing odd byte; appending one byte to an even-length input
leaves the decoded samples unchanged. -/
theorem c7_odd_length_floored :
    (∀ b : List (Fin 256), (decodeAudioData b).length = b.length / 2) ∧
    (∀ (b : List (Fin 256)) (x : Fin 256), b.length % 2 = 0 →
       decodeAudioData (b ++ [x]) = decodeAudioData b) := by
  constructor
  · exact decodeAudioData_length
  · intro b x
    induction b using decodeAudioData.induct with
    | case1 => intro _; rfl
    | case2 y => intro h; simp at h
    | case3 b0 b1 rest ih =>
      intro h
      have hrest : rest.length % 2 = 0 := by
        simp only [List.length_cons] at h
        omega
      simp only [List.cons_append, decodeAudioData]
      exact congrArg (List.cons _) (ih hrest)

/-- Witness for c7_odd_length_floored at a concrete even-length input: the
two-byte list decodes to one sample, and appending a third byte changes
nothing. -/
theorem c7_odd_length_floored_witness :
    (decodeAudioData [(1 : Fin 256), 2]).length = 2 / 2 ∧
    (([(1 : Fin 256), 2] : List (Fin 256)).length % 2 = 0) ∧
    decodeAudioData ([(1 : Fin 256), 2] ++ [(3 : Fin 256)]) =
      decodeAudioData [(1 : Fin 256), 2] := by
  exact ⟨c7_odd_length_floored.1 [(1 : Fin 256), 2], rfl,
         c7_odd_length_floored.2 [(1 : Fin 256), 2] 3 rfl⟩
